import Mathlib

/-!
Verification development for the ts_query_ls repository: a shallow embedding of
`src/cli/lint.rs` (the standalone lint orchestrator) and `src/handlers/hover.rs`
(the documentation-lookup handler), together with theorems about them.

External collaborators that are not part of the excerpted sources (the
tree-sitter parse, `get_diagnostics`, `get_scm_files`, `get_language_name`,
`get_current_capture_node`, `uri_to_basename`, the bundled markdown documents)
are either taken as parameters (universally quantified functions) or modelled
from the specification; each such definition says so in its doc comment.
-/

namespace TsQueryLs

/-! ## Shared data model -/

/-- Embedding of `tower_lsp::lsp_types::Diagnostic` as consumed by the lint CLI:
an optional numeric severity (ERROR = 1, WARNING = 2, INFORMATION = 3, HINT = 4,
the type is open-ended), a start line / start character, and a message. -/
structure Diagnostic where
  severity : Option Nat
  startLine : Nat
  startChar : Nat
  message : String
deriving DecidableEq

/-- Embedding of `ts_query_ls::Options`: predicate and directive definitions and
capture descriptions, each a map modelled as an association list. -/
structure Parameter where
  type_ : String
  arity : String
  description : Option String
deriving DecidableEq

/-- A predicate or directive definition: a description plus ordered parameter
specs. -/
structure Definition where
  description : String
  parameters : List Parameter
deriving DecidableEq

/-- The validator registry configuration (`ts_query_ls::Options`). -/
structure Options where
  valid_predicates : List (String × Definition)
  valid_directives : List (String × Definition)
  valid_captures : List (String × List (String × String))
deriving DecidableEq

/-- Association-list lookup, modelling `HashMap::get`. -/
def lookupAssoc {α β : Type} [BEq α] (l : List (α × β)) (k : α) : Option β :=
  (l.find? (fun kv => kv.1 == k)).map (fun kv => kv.2)

/-- Embedding of `SymbolInfo`: a node-kind label together with whether the node
kind is named. -/
structure SymbolInfo where
  label : String
  named : Bool
deriving DecidableEq, BEq

/-- Embedding of a Grammar Registry entry (`LanguageData`): the node-kind set,
the field-name set, and the supertype map. -/
structure LanguageData where
  nodeKinds : List String
  fieldNames : List String
  supertypeMap : List (SymbolInfo × List SymbolInfo)

/-! ## Lint orchestrator (`src/cli/lint.rs`) -/

/-- The severity label chosen by `lint_file`s match on `diagnostic.severity`. -/
def severityLabel : Option Nat → String
  | some 1 => "Error"
  | some 2 => "Warning"
  | some 3 => "Info"
  | some 4 => "Hint"
  | _ => "Diagnostic"

/-- The header part (up to the newline) of the record `lint_file` prints for one
diagnostic. -/
def diagnosticHeader (path : String) (d : Diagnostic) : String :=
  severityLabel d.severity ++ " in \"" ++ path ++ "\" on line " ++
    toString d.startLine ++ ", col " ++ toString d.startChar ++ ":"

/-- The full text passed to `eprintln!` for one diagnostic in `lint_file`:
`"{} in \"{}\" on line {}, col {}:\n  {}"`. Note the embedded newline before the
indented message. -/
def formatDiagnostic (path : String) (d : Diagnostic) : String :=
  diagnosticHeader path d ++ "\n  " ++ d.message

/-- Embedding of the `DocumentData` value built inside `lint_file`: the tree and
rope are functions of the source text (held here verbatim), the language name is
resolved from the URI and options, and the version defaults to zero. -/
structure LintDocument where
  source : String
  languageName : Option String
deriving DecidableEq

/-- Embedding of `lint_file`. The engine `getDiagnostics` (the repository's
`get_diagnostics`, which lives outside the excerpted sources) and the language
name resolver `getLangName` (`util::get_language_name`) are parameters. The
atomic exit code becomes explicit state: the returned first component is the
exit code after the call, the second the list of records printed to stderr
(one `eprintln!` call per diagnostic). -/
def lint_file
    (getDiagnostics : String → LintDocument → Option LanguageData → Options → List Diagnostic)
    (getLangName : String → Options → Option String)
    (path uriStr source : String) (opts : Options)
    (languageData : Option LanguageData) (exitCode : Nat) : Nat × List String :=
  let doc : LintDocument := { source := source, languageName := getLangName uriStr opts }
  let diagnostics := getDiagnostics uriStr doc languageData opts
  if diagnostics.isEmpty then (exitCode, [])
  else (1, diagnostics.map (formatDiagnostic path))

/-- One discovered `.scm` file, as seen by `lint_directories`: its path as
discovered, its canonicalized path (canonicalization is OS work, held here as
data), and the outcome of `fs::read_to_string` (`none` models a read error). -/
structure ScmFile where
  path : String
  canonicalPath : String
  readResult : Option String

/-- The URI built by `Url::from_file_path(path.canonicalize())`. -/
def fileUri (f : ScmFile) : String := "file://" ++ f.canonicalPath

/-- The body of the per-file closure spawned by `lint_directories`: an
unreadable file prints `Failed to read {:?}` (which debug-quotes the
canonicalized path) and stores `1` into the shared exit code; a readable file is
handed to `lint_file` with `language_data = None`. -/
def lintStep
    (getDiagnostics : String → LintDocument → Option LanguageData → Options → List Diagnostic)
    (getLangName : String → Options → Option String)
    (opts : Options) (acc : Nat × List String) (f : ScmFile) : Nat × List String :=
  match f.readResult with
  | some source =>
    let r := lint_file getDiagnostics getLangName f.path (fileUri f) source opts none acc.1
    (r.1, acc.2 ++ r.2)
  | none => (1, acc.2 ++ ["Failed to read \"" ++ f.canonicalPath ++ "\""])

/-- Embedding of `lint_directories`. Configuration parsing (`serde_json`) is the
parameter `parseConfig`; file discovery (`get_scm_files`) is abstracted by
passing the discovered files directly. The spawned per-file tasks only ever
store `1` into the shared exit code and append to stderr, so the fold order is
an arbitrary serialization of the concurrent run; the exit code is
order-independent. -/
def lint_directories
    (getDiagnostics : String → LintDocument → Option LanguageData → Options → List Diagnostic)
    (getLangName : String → Options → Option String)
    (parseConfig : String → Option Options)
    (config : String) (scmFiles : List ScmFile) : Nat × List String :=
  match parseConfig config with
  | none => (1, ["Could not parse the provided configuration"])
  | some opts =>
    scmFiles.foldl (lintStep getDiagnostics getLangName opts) (0, [])

/-- The stderr records contributed by one file during a lint run. -/
def fileOutput
    (getDiagnostics : String → LintDocument → Option LanguageData → Options → List Diagnostic)
    (getLangName : String → Options → Option String)
    (opts : Options) (f : ScmFile) : List String :=
  match f.readResult with
  | some source =>
    (lint_file getDiagnostics getLangName f.path (fileUri f) source opts none 0).2
  | none => ["Failed to read \"" ++ f.canonicalPath ++ "\""]

/-- A file is clean when it reads successfully and the engine emits no
diagnostic for it. -/
def fileCleanB
    (getDiagnostics : String → LintDocument → Option LanguageData → Options → List Diagnostic)
    (getLangName : String → Options → Option String)
    (opts : Options) (f : ScmFile) : Bool :=
  match f.readResult with
  | some source =>
    (getDiagnostics (fileUri f) { source := source, languageName := getLangName (fileUri f) opts }
      none opts).isEmpty
  | none => false

/-! ## String containment and physical lines -/

/-- Substring containment: the characters of `t` occur contiguously in `s`. -/
def strContains (s t : String) : Prop := t.data <:+: s.data

instance (s t : String) : Decidable (strContains s t) := by
  unfold strContains; infer_instance

/-- A containment witness from an explicit decomposition of the character
data. -/
theorem strContains_of_eq {s t : String} (l r : List Char)
    (h : s.data = l ++ t.data ++ r) : strContains s t :=
  ⟨l, r, h.symm⟩

/-- Splitting character data on a separator character, structurally (so that
the kernel can evaluate it on concrete inputs). -/
def splitOnChar (sep : Char) : List Char → List (List Char)
  | [] => [[]]
  | c :: rest =>
    let r := splitOnChar sep rest
    if c = sep then [] :: r
    else (c :: r.headD []) :: r.tail

/-- Splitting on newline characters. -/
def splitLines (l : List Char) : List (List Char) := splitOnChar '\n' l

/-- The physical lines of a text written to the error stream. -/
def recordLines (s : String) : List String :=
  (splitLines s.data).map (fun l => ⟨l⟩)

/-! ## Aggregation behavior of the lint fold -/

/-- Folding `lintStep` over the discovered files: the resulting exit code is the
starting code when every file is clean and `1` otherwise, and the output is the
concatenation of every file's records (no file aborts the batch). -/
theorem lintStep_foldl_spec
    (gd : String → LintDocument → Option LanguageData → Options → List Diagnostic)
    (gl : String → Options → Option String)
    (opts : Options) (files : List ScmFile) (c : Nat) (out : List String) :
    files.foldl (lintStep gd gl opts) (c, out)
      = (if files.all (fileCleanB gd gl opts) then c else 1,
         out ++ files.flatMap (fileOutput gd gl opts)) := by
  induction files generalizing c out with
  | nil => simp
  | cons f t ih =>
    rw [List.foldl_cons, List.all_cons, List.flatMap_cons]
    cases hr : f.readResult with
    | some source =>
      have hstep : lintStep gd gl opts (c, out) f
          = (if (gd (fileUri f) { source := source, languageName := gl (fileUri f) opts }
                  none opts).isEmpty then c else 1,
             out ++ fileOutput gd gl opts f) := by
        simp only [lintStep, hr, lint_file, fileOutput]
        split <;> simp_all
      rw [hstep, ih]
      have hclean : fileCleanB gd gl opts f
          = (gd (fileUri f) { source := source, languageName := gl (fileUri f) opts }
              none opts).isEmpty := by
        simp [fileCleanB, hr]
      rw [hclean]
      cases hde : (gd (fileUri f) { source := source, languageName := gl (fileUri f) opts }
          none opts).isEmpty <;> simp [List.append_assoc]
    | none =>
      have hstep : lintStep gd gl opts (c, out) f
          = (1, out ++ fileOutput gd gl opts f) := by
        simp [lintStep, hr, fileOutput]
      rw [hstep, ih]
      have hclean : fileCleanB gd gl opts f = false := by simp [fileCleanB, hr]
      rw [hclean]
      simp [List.append_assoc]

/-- C1: the exit code of `lint_directories` is `0` exactly when the
configuration parses, every discovered file reads successfully, and no linted
file produces a diagnostic; in every other case it is `1`. -/
theorem lint_exit_code_spec
    (gd : String → LintDocument → Option LanguageData → Options → List Diagnostic)
    (gl : String → Options → Option String)
    (pc : String → Option Options) (config : String) (files : List ScmFile) :
    ((lint_directories gd gl pc config files).1 = 0 ↔
      ∃ opts, pc config = some opts ∧
        ∀ f ∈ files, ∃ src, f.readResult = some src ∧
          gd (fileUri f) { source := src, languageName := gl (fileUri f) opts } none opts = [])
    ∧ ((lint_directories gd gl pc config files).1 = 0 ∨
       (lint_directories gd gl pc config files).1 = 1) := by
  unfold lint_directories
  cases hpc : pc config with
  | none => simp
  | some opts =>
    dsimp only
    rw [lintStep_foldl_spec]
    by_cases hall : files.all (fileCleanB gd gl opts) = true
    · constructor
      · constructor
        · intro _
          refine ⟨opts, rfl, ?_⟩
          intro f hf
          have := (List.all_eq_true.mp hall) f hf
          unfold fileCleanB at this
          cases hr : f.readResult with
          | some src =>
            rw [hr] at this
            exact ⟨src, rfl, by simpa using this⟩
          | none => rw [hr] at this; cases this
        · intro _
          simp [hall]
      · simp [hall]
    · rw [if_neg hall]
      refine And.intro (Iff.intro (fun h => absurd h one_ne_zero) (fun h => ?_)) (Or.inr rfl)
      obtain ⟨opts2, hopts2, hcl⟩ := h
      injection hopts2 with heq
      subst heq
      apply absurd _ hall
      rw [List.all_eq_true]
      intro f hf
      obtain ⟨src, hsrc, hnil⟩ := hcl f hf
      unfold fileCleanB
      rw [hsrc]
      simp [hnil]

/-- C2 (amended): `lint_file` prints exactly one error-stream record per
diagnostic, and that record is a header line carrying the severity label, the
file path and the start line and column, followed by the message on a
subsequent indented line. -/
theorem lint_file_one_record_per_diagnostic
    (gd : String → LintDocument → Option LanguageData → Options → List Diagnostic)
    (gl : String → Options → Option String)
    (path uriStr source : String) (opts : Options)
    (ld : Option LanguageData) (c : Nat) :
    (lint_file gd gl path uriStr source opts ld c).2
      = (gd uriStr { source := source, languageName := gl uriStr opts } ld opts).map
          (formatDiagnostic path)
    ∧ ∀ d : Diagnostic,
        formatDiagnostic path d = diagnosticHeader path d ++ "\n  " ++ d.message
        ∧ strContains (diagnosticHeader path d) path
        ∧ strContains (diagnosticHeader path d) (severityLabel d.severity)
        ∧ strContains (diagnosticHeader path d) (toString d.startLine)
        ∧ strContains (diagnosticHeader path d) (toString d.startChar) := by
  constructor
  · simp only [lint_file]
    split
    · rename_i h
      rw [List.isEmpty_iff] at h
      simp [h]
    · rfl
  · intro d
    refine ⟨rfl, ?_, ?_, ?_, ?_⟩
    · exact strContains_of_eq ((severityLabel d.severity).data ++ " in \"".data)
        (("\" on line " ++ toString d.startLine ++ ", col " ++
          toString d.startChar ++ ":").data)
        (by simp [diagnosticHeader, String.data_append])
    · exact strContains_of_eq []
        ((" in \"" ++ path ++ "\" on line " ++ toString d.startLine ++ ", col " ++
          toString d.startChar ++ ":").data)
        (by simp [diagnosticHeader, String.data_append])
    · exact strContains_of_eq
        ((severityLabel d.severity ++ " in \"" ++ path ++ "\" on line ").data)
        ((", col " ++ toString d.startChar ++ ":").data)
        (by simp [diagnosticHeader, String.data_append])
    · exact strContains_of_eq
        ((severityLabel d.severity ++ " in \"" ++ path ++ "\" on line " ++
          toString d.startLine ++ ", col ").data)
        (":".data)
        (by simp [diagnosticHeader, String.data_append])

/-- An engine producing a single fixed diagnostic, for concrete evaluation. -/
def oneDiagEngine : String → LintDocument → Option LanguageData → Options → List Diagnostic :=
  fun _ _ _ _ => [{ severity := some 1, startLine := 3, startChar := 5, message := "msg" }]

/-- A language-name resolver that never resolves, for concrete evaluation. -/
def noLangName : String → Options → Option String := fun _ _ => none

/-- An empty validator configuration, for concrete evaluation. -/
def emptyOptions : Options := { valid_predicates := [], valid_directives := [], valid_captures := [] }

/-- C2 fails as stated: on a concrete lint run the single record printed for a
diagnostic spans two physical lines, and no one of those lines contains both
the file path and the diagnostic message, so no single printed line carries all
the required pieces. -/
theorem lint_record_not_single_line :
    (lint_file oneDiagEngine noLangName "a.scm" "file:///a.scm" "(x)" emptyOptions none 0).2
      = [formatDiagnostic "a.scm" { severity := some 1, startLine := 3, startChar := 5, message := "msg" }]
    ∧ (recordLines (formatDiagnostic "a.scm"
        { severity := some 1, startLine := 3, startChar := 5, message := "msg" })).length = 2
    ∧ ∀ l ∈ recordLines (formatDiagnostic "a.scm"
        { severity := some 1, startLine := 3, startChar := 5, message := "msg" }),
        ¬(strContains l "a.scm" ∧ strContains l "msg") := by
  refine ⟨rfl, by decide, by decide⟩

/-! ## Spec-modelled validation engine (for the degraded lint mode) -/

/-- Modelled from the spec: the per-family facts that a single traversal of the
parsed query tree exposes to the Validation Engine (spec 4.4). The repository's
`get_diagnostics` lives in `src/handlers/diagnostic.rs`, which is not among the
excerpted sources. `parseDiags` are the Error diagnostics for error/missing
markers (item 1, always reported); `nodeRefs` and `fieldRefs` are the named node
and field references with their positions (items 2 and 3); `predicateChecks`
covers the predicate/directive/capture rules (items 5-7), which depend only on
the Validator Registry, abstracted here as a function of the options. -/
structure ParsedQueryFacts where
  parseDiags : List Diagnostic
  nodeRefs : List (String × Nat × Nat)
  fieldRefs : List (String × Nat × Nat)
  predicateChecks : Options → List Diagnostic

/-- Modelled from the spec (4.4 item 2): a referenced node-kind name must be a
member of the node-kind set or a named key of the supertype map, otherwise an
Error diagnostic is emitted. -/
def unknownNodeDiags (ld : LanguageData) (refs : List (String × Nat × Nat)) : List Diagnostic :=
  refs.filterMap fun r =>
    if ld.nodeKinds.contains r.1
        || ld.supertypeMap.any (fun kv => kv.1.label == r.1 && kv.1.named) then none
    else some { severity := some 1, startLine := r.2.1, startChar := r.2.2,
                message := "Invalid node type: " ++ r.1 }

/-- Modelled from the spec (4.4 item 3): a referenced field name must be a
member of the field-name set, otherwise an Error diagnostic is emitted. -/
def unknownFieldDiags (ld : LanguageData) (refs : List (String × Nat × Nat)) : List Diagnostic :=
  refs.filterMap fun r =>
    if ld.fieldNames.contains r.1 then none
    else some { severity := some 1, startLine := r.2.1, startChar := r.2.2,
                message := "Invalid field name: " ++ r.1 }

/-- Modelled from the spec: the Validation Engine (`get_diagnostics`, spec 4.4).
Parse-level diagnostics are always emitted; node-kind and field checks run only
when a Grammar Registry entry is supplied (degraded mode skips them silently);
registry-driven checks consult the options. The parse of the source into facts
is tree-sitter work, abstracted as the `facts` parameter. -/
def get_diagnostics_model (facts : String → ParsedQueryFacts) (doc : LintDocument)
    (languageData : Option LanguageData) (opts : Options) : List Diagnostic :=
  let f := facts doc.source
  f.parseDiags
    ++ (match languageData with
        | none => []
        | some ld => unknownNodeDiags ld f.nodeRefs ++ unknownFieldDiags ld f.fieldRefs)
    ++ f.predicateChecks opts

/-- C3: every engine invocation made by `lint_directories` passes no Grammar
Registry entry (the run only depends on the engine's behavior at `none`), and
at `none` the modelled engine emits exactly the parse-level and registry-driven
diagnostics — the node-kind and field checks are skipped — irrespective of the
document's resolved target-language name. -/
theorem lint_no_language_data :
    (∀ (gd gd2 : String → LintDocument → Option LanguageData → Options → List Diagnostic)
       (gl : String → Options → Option String)
       (pc : String → Option Options) (config : String) (files : List ScmFile),
       (∀ u d o, gd u d none o = gd2 u d none o) →
       lint_directories gd gl pc config files = lint_directories gd2 gl pc config files)
    ∧ (∀ (facts : String → ParsedQueryFacts) (src : String)
         (nameA nameB : Option String) (opts : Options),
       get_diagnostics_model facts { source := src, languageName := nameA } none opts
         = (facts src).parseDiags ++ (facts src).predicateChecks opts
       ∧ get_diagnostics_model facts { source := src, languageName := nameA } none opts
         = get_diagnostics_model facts { source := src, languageName := nameB } none opts) := by
  constructor
  · intro gd gd2 gl pc config files h
    unfold lint_directories
    cases pc config with
    | none => rfl
    | some opts =>
      dsimp only
      have hstep : lintStep gd gl opts = lintStep gd2 gl opts := by
        funext acc f
        unfold lintStep
        cases f.readResult with
        | none => rfl
        | some source => simp only [lint_file, h]
      rw [hstep]
  · intro facts src nameA nameB opts
    constructor
    · simp [get_diagnostics_model]
    · rfl

/-- C4: when the configuration parses and some discovered file fails to read,
the aggregate exit code is `1`, the read failure is recorded on the error
stream, and the error stream is still the concatenation of every discovered
file's records — the batch is not aborted. -/
theorem lint_unreadable_recorded
    (gd : String → LintDocument → Option LanguageData → Options → List Diagnostic)
    (gl : String → Options → Option String)
    (pc : String → Option Options) (config : String) (files : List ScmFile)
    (opts : Options) (f : ScmFile)
    (hpc : pc config = some opts) (hf : f ∈ files) (hread : f.readResult = none) :
    (lint_directories gd gl pc config files).1 = 1
    ∧ ("Failed to read \"" ++ f.canonicalPath ++ "\"")
        ∈ (lint_directories gd gl pc config files).2
    ∧ (lint_directories gd gl pc config files).2 = files.flatMap (fileOutput gd gl opts) := by
  unfold lint_directories
  rw [hpc]
  dsimp only
  rw [lintStep_foldl_spec]
  have hnall : files.all (fileCleanB gd gl opts) = false := by
    rw [List.all_eq_false]
    refine ⟨f, hf, ?_⟩
    simp [fileCleanB, hread]
  refine ⟨by simp [hnall], ?_, by simp⟩
  have : ("Failed to read \"" ++ f.canonicalPath ++ "\"") ∈ fileOutput gd gl opts f := by
    simp [fileOutput, hread]
  simp only [List.nil_append]
  exact List.mem_flatMap.mpr ⟨f, hf, this⟩

/-- A concrete unreadable file. -/
def badFile : ScmFile := { path := "bad.scm", canonicalPath := "/tmp/bad.scm", readResult := none }

/-- A concrete clean, readable file. -/
def goodFile : ScmFile := { path := "good.scm", canonicalPath := "/tmp/good.scm", readResult := some "(x)" }

/-- A configuration parser accepting everything, for concrete evaluation. -/
def alwaysParse : String → Option Options := fun _ => some emptyOptions

/-- A silent engine emitting no diagnostics, for concrete evaluation. -/
def silentEngine : String → LintDocument → Option LanguageData → Options → List Diagnostic :=
  fun _ _ _ _ => []

/-- Witness for C4 at a concrete batch of one unreadable and one clean file:
exit code 1, the read failure recorded, the clean file still processed. -/
theorem lint_unreadable_recorded_witness :
    (lint_directories silentEngine noLangName alwaysParse "{}" [badFile, goodFile]).1 = 1
    ∧ ("Failed to read \"" ++ badFile.canonicalPath ++ "\"")
        ∈ (lint_directories silentEngine noLangName alwaysParse "{}" [badFile, goodFile]).2
    ∧ (lint_directories silentEngine noLangName alwaysParse "{}" [badFile, goodFile]).2
        = [badFile, goodFile].flatMap (fileOutput silentEngine noLangName emptyOptions) :=
  lint_unreadable_recorded silentEngine noLangName alwaysParse "{}" [badFile, goodFile]
    emptyOptions badFile rfl (by simp) rfl

/-- Witness for C3 at concrete inputs. -/
theorem lint_no_language_data_witness :
    lint_directories oneDiagEngine noLangName alwaysParse "{}" [goodFile]
      = lint_directories
          (fun u d ld o => match ld with
            | none => oneDiagEngine u d none o
            | some _ => [])
          noLangName alwaysParse "{}" [goodFile]
    ∧ get_diagnostics_model (fun _ => ⟨[], [("foo", 0, 0)], [], fun _ => []⟩)
        { source := "(foo)", languageName := some "rust" } none emptyOptions
      = [] := by
  constructor
  · exact lint_no_language_data.1 oneDiagEngine _ noLangName alwaysParse "{}" [goodFile]
      (fun _ _ _ => rfl)
  · have h := (lint_no_language_data.2 (fun _ => ⟨[], [("foo", 0, 0)], [], fun _ => []⟩)
      "(foo)" (some "rust") none emptyOptions).1
    simpa using h

/-! ## Hover handler (`src/handlers/hover.rs`) -/

/-- A line/character position (`lsp_types::Position`). -/
structure Pos where
  line : Nat
  character : Nat
deriving DecidableEq

/-- A source range (`lsp_types::Range`). -/
structure Range where
  startPos : Pos
  endPos : Pos
deriving DecidableEq

/-- The facts the hover handler reads from the parent of the node under the
cursor: its kind and the texts of its named children (`named_child(1)` is used
to detect the trailing predicate marker). -/
structure ParentCtx where
  kind : String
  namedChildTexts : List String
deriving DecidableEq

/-- The node returned by `descendant_for_point_range` at the cursor, with the
accessors the handler uses: kind, text, LSP range, and parent. -/
structure NodeCtx where
  kind : String
  text : String
  range : Range
  parent : Option ParentCtx
deriving DecidableEq

/-- The capture node (text including the `@` sigil, and range) found by
`util::get_current_capture_node` at the cursor. -/
structure CaptureNode where
  text : String
  range : Range
deriving DecidableEq

/-- One entry of the document store as the hover handler reads it: the resolved
target-language name, and the tree/rope pair abstracted by the two lookups the
handler performs on it. `nodeAt` is tree-sitter's `descendant_for_point_range`
(external C code); `captureAt` is `util::get_current_capture_node` (outside the
excerpted sources); both are data here. -/
structure DocumentData where
  languageName : Option String
  nodeAt : Pos → Option NodeCtx
  captureAt : Pos → Option CaptureNode

/-- The server state the hover handler reads: the document store, the grammar
registry, and the validator options. -/
structure Backend where
  documentMap : List (String × DocumentData)
  languageMap : List (String × LanguageData)
  options : Options

/-- The bundled markdown documents included with `include_str!`; their contents
are build-time assets outside the excerpted sources, so they are represented by
provenance. -/
inductive DocFile where
  | error
  | missing
  | wildcard
  | anchor
  | quantification
  | alternation
deriving DecidableEq

/-- The markdown contents of a hover reply: either one of the bundled static
documents, or dynamically generated markdown text. -/
inductive HoverValue where
  | bundled (f : DocFile)
  | markdown (value : String)
deriving DecidableEq

/-- A hover reply: a range and markdown contents. -/
structure HoverResult where
  range : Range
  value : HoverValue
deriving DecidableEq

/-- Modelled from the spec: `util::uri_to_basename` (outside the excerpted
sources) — the query file's logical group/basename: the final path segment of
the URI without its extension. -/
def uri_to_basename (uri : String) : Option String :=
  ((splitOnChar '/' uri.data).getLast?).map
    (fun fileName => ⟨(splitOnChar '.' fileName).headD fileName⟩)

/-- Modelled from the spec: the `Display` rendering of a `SymbolInfo` (outside
the excerpted sources): a named node kind renders parenthesized, an anonymous
one quoted — the repository's hover test shows subtype `test` rendered as
`(test)`. -/
def symbolDisplay (s : SymbolInfo) : String :=
  if s.named then "(" ++ s.label ++ ")" else "\"" ++ s.label ++ "\""

/-- The markdown built for a known predicate or directive: the definition's
description, a separator, and one bullet per ordered parameter spec with its
type tag, arity and optional description. -/
def renderDefinition (d : Definition) : String :=
  d.parameters.foldl
    (fun value param =>
      value ++ "- Type: `" ++ param.type_ ++ "` (" ++ param.arity ++ ")\n"
        ++ (match param.description with
            | some desc => "  - " ++ desc ++ "\n"
            | none => ""))
    (d.description ++ "\n\n---\n\n## Parameters:\n\n")

/-- The markdown listing built for a supertype: a header, then each subtype on
its own line inside a query fence. -/
def subtypesListing (nodeText : String) (subtypes : List SymbolInfo) : String :=
  (subtypes.foldl (fun acc subtype => acc ++ "\n" ++ symbolDisplay subtype)
    ("Subtypes of `(" ++ nodeText ++ ")`:\n\n```query")) ++ "\n```"

/-- The branch of `hover` taken when the node is an `identifier` whose parent is
a `named_node`, `missing_node` or `predicate`. For a predicate parent the name
is resolved against the predicates when `named_child(1)` is the trailing `?`
marker and against the directives otherwise, returning `None` on a miss; for
the other parents a supertype lookup is tried, then the static `ERROR`
document. -/
def hoverIdentifier (options : Options)
    (supertypes : Option (List (SymbolInfo × List SymbolInfo)))
    (node : NodeCtx) (p : ParentCtx) : Option HoverResult :=
  if p.kind == "predicate" then
    let isPredicate := p.namedChildTexts[1]? == some "?"
    let validator := if isPredicate then options.valid_predicates else options.valid_directives
    match lookupAssoc validator node.text with
    | some pr => some { range := node.range, value := .markdown (renderDefinition pr) }
    | none => none
  else
    match supertypes.bind (fun st => lookupAssoc st { label := node.text, named := true }) with
    | some subtypes =>
      some { range := node.range, value := .markdown (subtypesListing node.text subtypes) }
    | none =>
      if node.text == "ERROR" then some { range := node.range, value := .bundled .error }
      else none

/-- The tail of `hover`s `else if` chain, reached when the node is not an
identifier in one of the three special parents. -/
def hoverRest (options : Options) (doc : DocumentData) (uri : String) (position : Pos)
    (node : NodeCtx) : Option HoverResult :=
  if node.kind == "MISSING" then some { range := node.range, value := .bundled .missing }
  else if node.kind == "_" then some { range := node.range, value := .bundled .wildcard }
  else
    match doc.captureAt position with
    | some capture =>
      match (uri_to_basename uri).bind (fun base =>
          (lookupAssoc options.valid_captures base).bind (fun c =>
            lookupAssoc c (capture.text.drop 1))) with
      | some description =>
        some { range := capture.range,
               value := .markdown ("## `" ++ capture.text ++ "`\n\n" ++ description) }
      | none => none
    | none =>
      if node.kind == "." && node.parent.any (fun p => p.kind != "predicate") then
        some { range := node.range, value := .bundled .anchor }
      else if node.kind == "?" || node.kind == "*" || node.kind == "+" then
        some { range := node.range, value := .bundled .quantification }
      else if node.kind == "[" || node.kind == "]" then
        some { range := node.range, value := .bundled .alternation }
      else none

/-- The hover reply computed by the handler: document lookup, node-at-cursor
lookup, then the classification chain of `hover.rs`. -/
def hoverResult (b : Backend) (uri : String) (position : Pos) : Option HoverResult :=
  match lookupAssoc b.documentMap uri with
  | none => none
  | some doc =>
    match doc.nodeAt position with
    | none => none
    | some node =>
      let languageData := doc.languageName.bind (fun name => lookupAssoc b.languageMap name)
      let supertypes := languageData.map (fun ld => ld.supertypeMap)
      if node.kind == "identifier" && node.parent.any (fun p =>
          p.kind == "named_node" || p.kind == "missing_node" || p.kind == "predicate") then
        match node.parent with
        | some p => hoverIdentifier b.options supertypes node p
        | none => none
      else
        hoverRest b.options doc uri position node

/-- Embedding of the `hover` handler. The Rust function only ever acquires read
locks on the backend state; its embedding threads the state through explicitly
and returns it alongside the reply. -/
def hover (b : Backend) (uri : String) (position : Pos) : Backend × Option HoverResult :=
  (b, hoverResult b uri position)

/-! ## Hover helper lemmas -/

/-- Reduction of `hoverResult` to the identifier branch. -/
theorem hoverResult_identifier (b : Backend) (uri : String) (pos : Pos)
    (doc : DocumentData) (node : NodeCtx) (p : ParentCtx)
    (hdoc : lookupAssoc b.documentMap uri = some doc)
    (hnode : doc.nodeAt pos = some node)
    (hkind : node.kind = "identifier")
    (hpar : node.parent = some p)
    (hp3 : p.kind = "named_node" ∨ p.kind = "missing_node" ∨ p.kind = "predicate") :
    hoverResult b uri pos
      = hoverIdentifier b.options
          ((doc.languageName.bind (fun name => lookupAssoc b.languageMap name)).map
            (fun ld => ld.supertypeMap)) node p := by
  unfold hoverResult
  rw [hdoc]
  dsimp only
  rw [hnode]
  dsimp only
  have hcond : (node.kind == "identifier" && node.parent.any (fun q =>
      q.kind == "named_node" || q.kind == "missing_node" || q.kind == "predicate")) = true := by
    rw [hkind, hpar]
    rcases hp3 with h | h | h <;> simp [h]
  rw [hcond]
  simp [hpar]

/-- Reduction of `hoverResult` to the tail chain when the identifier-branch
condition fails. -/
theorem hoverResult_rest (b : Backend) (uri : String) (pos : Pos)
    (doc : DocumentData) (node : NodeCtx)
    (hdoc : lookupAssoc b.documentMap uri = some doc)
    (hnode : doc.nodeAt pos = some node)
    (hcond : (node.kind == "identifier" && node.parent.any (fun q =>
      q.kind == "named_node" || q.kind == "missing_node" || q.kind == "predicate")) = false) :
    hoverResult b uri pos = hoverRest b.options doc uri pos node := by
  unfold hoverResult
  rw [hdoc]
  dsimp only
  rw [hnode]
  dsimp only
  rw [hcond]
  simp only [Bool.false_eq_true, if_false]

/-- Whether the node under the cursor falls in one of the hover documentation
categories: a known predicate/directive name inside a predicate invocation, a
registered supertype or the `ERROR` keyword in a node position, a missing
marker, a wildcard, a documented capture, an anchor outside a predicate, a
quantifier, or an alternation bracket. -/
def matchesDocCategory (b : Backend) (uri : String) (position : Pos) : Bool :=
  match lookupAssoc b.documentMap uri with
  | none => false
  | some doc =>
    match doc.nodeAt position with
    | none => false
    | some node =>
      let languageData := doc.languageName.bind (fun name => lookupAssoc b.languageMap name)
      let supertypes := languageData.map (fun ld => ld.supertypeMap)
      if node.kind == "identifier" && node.parent.any (fun q =>
          q.kind == "named_node" || q.kind == "missing_node" || q.kind == "predicate") then
        match node.parent with
        | some p =>
          if p.kind == "predicate" then
            (lookupAssoc
              (if p.namedChildTexts[1]? == some "?" then b.options.valid_predicates
               else b.options.valid_directives) node.text).isSome
          else
            (supertypes.bind (fun st =>
              lookupAssoc st { label := node.text, named := true })).isSome
              || node.text == "ERROR"
        | none => false
      else
        if node.kind == "MISSING" then true
        else if node.kind == "_" then true
        else
          match doc.captureAt position with
          | some capture =>
            ((uri_to_basename uri).bind (fun base =>
              (lookupAssoc b.options.valid_captures base).bind (fun c =>
                lookupAssoc c (capture.text.drop 1)))).isSome
          | none =>
            (node.kind == "." && node.parent.any (fun q => q.kind != "predicate"))
              || node.kind == "?" || node.kind == "*" || node.kind == "+"
              || node.kind == "[" || node.kind == "]"

/-- The classification table and the reply agree: `hover` produces a reply
exactly on the categories of `matchesDocCategory`. -/
theorem hoverResult_isSome_eq (b : Backend) (uri : String) (pos : Pos) :
    (hoverResult b uri pos).isSome = matchesDocCategory b uri pos := by
  unfold hoverResult matchesDocCategory
  cases lookupAssoc b.documentMap uri with
  | none => rfl
  | some doc =>
    dsimp only
    cases doc.nodeAt pos with
    | none => rfl
    | some node =>
      dsimp only
      split
      · cases node.parent with
        | none => rfl
        | some p =>
          dsimp only
          unfold hoverIdentifier
          split
          · simp only [beq_iff_eq]
            cases h : lookupAssoc
              (if p.namedChildTexts[1]? = some "?" then b.options.valid_predicates
               else b.options.valid_directives) node.text <;> simp [h]
          · cases h : (doc.languageName.bind (fun name => lookupAssoc b.languageMap name)).map
                (fun ld => ld.supertypeMap) |>.bind (fun st =>
                  lookupAssoc st { label := node.text, named := true }) with
            | some subtypes => simp [h]
            | none =>
              simp only [h]
              by_cases he : node.text == "ERROR" <;> simp [he]
      · unfold hoverRest
        split
        · rfl
        · split
          · rfl
          · cases doc.captureAt pos with
            | some capture =>
              dsimp only
              cases h : (uri_to_basename uri).bind (fun base =>
                (lookupAssoc b.options.valid_captures base).bind (fun c =>
                  lookupAssoc c (capture.text.drop 1))) <;> simp [h]
            | none =>
              dsimp only
              split
              · rename_i hc
                simp [hc]
              · split
                · rename_i hc hq
                  simp [hc, hq]
                · split <;> rename_i hc hq hb
                  · simp [hc, hq, hb]
                  · simp [hc, hq, hb]

/-- C8: the hover handler leaves the backend state untouched, and replies with
nothing whenever the node at the cursor matches none of the documentation
categories. -/
theorem hover_no_mutation_and_none_without_category (b : Backend) (uri : String) (pos : Pos) :
    (hover b uri pos).1 = b
    ∧ (matchesDocCategory b uri pos = false → (hover b uri pos).2 = none) := by
  refine ⟨rfl, fun h => ?_⟩
  have hs := hoverResult_isSome_eq b uri pos
  rw [h] at hs
  show hoverResult b uri pos = none
  cases ho : hoverResult b uri pos with
  | none => rfl
  | some r => rw [ho] at hs; simp at hs

/-- A backend with no documents, for concrete evaluation. -/
def emptyBackend : Backend := { documentMap := [], languageMap := [], options := emptyOptions }

/-- Witness for C8 at a concrete backend with no matching category. -/
theorem hover_no_mutation_and_none_without_category_witness :
    (hover emptyBackend "file:///a.scm" { line := 0, character := 0 }).1 = emptyBackend
    ∧ (hover emptyBackend "file:///a.scm" { line := 0, character := 0 }).2 = none := by
  have h := hover_no_mutation_and_none_without_category emptyBackend "file:///a.scm"
    { line := 0, character := 0 }
  exact ⟨h.1, h.2 rfl⟩

/-- Evaluation of `hoverRest` on the capture branch: the node is neither a
missing marker nor a wildcard and a capture node encloses the cursor. -/
theorem hoverRest_capture (options : Options) (doc : DocumentData) (uri : String)
    (pos : Pos) (node : NodeCtx) (capture : CaptureNode)
    (hk1 : node.kind ≠ "MISSING") (hk2 : node.kind ≠ "_")
    (hcap : doc.captureAt pos = some capture) :
    hoverRest options doc uri pos node =
      ((uri_to_basename uri).bind (fun base =>
        (lookupAssoc options.valid_captures base).bind (fun c =>
          lookupAssoc c (capture.text.drop 1)))).map
        (fun description => { range := capture.range,
                              value := HoverValue.markdown
                                ("## `" ++ capture.text ++ "`\n\n" ++ description) }) := by
  unfold hoverRest
  rw [if_neg (by simp [hk1]), if_neg (by simp [hk2]), hcap]
  cases h : (uri_to_basename uri).bind (fun base =>
      (lookupAssoc options.valid_captures base).bind (fun c =>
        lookupAssoc c (capture.text.drop 1))) <;> simp [h]

/-- Evaluation of `hoverRest` on a `.` node with no enclosing capture: the
anchor document is returned exactly when the node has a parent that is not a
predicate. -/
theorem hoverRest_dot (options : Options) (doc : DocumentData) (uri : String)
    (pos : Pos) (node : NodeCtx)
    (hkind : node.kind = ".") (hcap : doc.captureAt pos = none) :
    hoverRest options doc uri pos node =
      (if node.parent.any (fun q => q.kind != "predicate") then
        some { range := node.range, value := HoverValue.bundled DocFile.anchor }
       else none) := by
  unfold hoverRest
  rw [if_neg (by simp [hkind]), if_neg (by simp [hkind]), hcap]
  simp [hkind]

/-! ## Predicate and directive hover (C5, C9) -/

/-- C5: hovering an identifier whose parent is a predicate invocation resolves
the name against the predicate definitions when `named_child(1)` of the
invocation is the trailing `?` marker and against the directive definitions
otherwise; a known name replies with the rendering of the definition's
description followed by its ordered parameter specs. -/
theorem hover_predicate_directive_resolution (b : Backend) (uri : String) (pos : Pos)
    (doc : DocumentData) (node : NodeCtx) (p : ParentCtx)
    (hdoc : lookupAssoc b.documentMap uri = some doc)
    (hnode : doc.nodeAt pos = some node)
    (hkind : node.kind = "identifier")
    (hpar : node.parent = some p)
    (hpk : p.kind = "predicate") :
    (hover b uri pos).2 =
      (lookupAssoc
        (if p.namedChildTexts[1]? == some "?" then b.options.valid_predicates
         else b.options.valid_directives) node.text).map
        (fun d => { range := node.range, value := HoverValue.markdown (renderDefinition d) }) := by
  show hoverResult b uri pos = _
  rw [hoverResult_identifier b uri pos doc node p hdoc hnode hkind hpar (Or.inr (Or.inr hpk))]
  simp only [hoverIdentifier, hpk, beq_self_eq_true, if_true]
  cases h : lookupAssoc
      (if p.namedChildTexts[1]? == some "?" then b.options.valid_predicates
       else b.options.valid_directives) node.text <;> simp [h]

/-- A sample range for concrete inputs. -/
def sampleRange : Range :=
  { startPos := { line := 0, character := 1 }, endPos := { line := 0, character := 6 } }

/-- A concrete predicate-invocation parent carrying the trailing `?` marker. -/
def predParent : ParentCtx := { kind := "predicate", namedChildTexts := ["eq", "?"] }

/-- A concrete identifier node naming a predicate. -/
def predNode : NodeCtx :=
  { kind := "identifier", text := "eq", range := sampleRange, parent := some predParent }

/-- A concrete predicate definition. -/
def eqDef : Definition :=
  { description := "Checks for equality",
    parameters := [{ type_ := "capture", arity := "1", description := none },
                   { type_ := "any", arity := "1", description := some "the value" }] }

/-- A concrete document whose cursor resolves to the predicate identifier. -/
def predDoc : DocumentData :=
  { languageName := none, nodeAt := fun _ => some predNode, captureAt := fun _ => none }

/-- A concrete backend registering the `eq` predicate. -/
def predBackend : Backend :=
  { documentMap := [("file:///a.scm", predDoc)], languageMap := [],
    options := { valid_predicates := [("eq", eqDef)], valid_directives := [],
                 valid_captures := [] } }

/-- Witness for C5 at a concrete backend: the known predicate name renders its
definition. -/
theorem hover_predicate_directive_resolution_witness :
    (hover predBackend "file:///a.scm" { line := 0, character := 2 }).2
      = some { range := sampleRange, value := HoverValue.markdown (renderDefinition eqDef) } := by
  have h := hover_predicate_directive_resolution predBackend "file:///a.scm"
    { line := 0, character := 2 } predDoc predNode predParent rfl rfl rfl rfl rfl
  simpa [predBackend, predParent, predNode, lookupAssoc] using h

/-- C9: hovering an identifier whose parent is a predicate invocation replies
with nothing when the invoked name is absent from the selected registry — there
is no fallback to the supertype listing or the static `ERROR` document. -/
theorem hover_unknown_invocation_none (b : Backend) (uri : String) (pos : Pos)
    (doc : DocumentData) (node : NodeCtx) (p : ParentCtx)
    (hdoc : lookupAssoc b.documentMap uri = some doc)
    (hnode : doc.nodeAt pos = some node)
    (hkind : node.kind = "identifier")
    (hpar : node.parent = some p)
    (hpk : p.kind = "predicate")
    (hmiss : lookupAssoc
      (if p.namedChildTexts[1]? == some "?" then b.options.valid_predicates
       else b.options.valid_directives) node.text = none) :
    (hover b uri pos).2 = none := by
  show hoverResult b uri pos = none
  rw [hoverResult_identifier b uri pos doc node p hdoc hnode hkind hpar (Or.inr (Or.inr hpk))]
  simp only [hoverIdentifier, hpk, beq_self_eq_true, if_true]
  rw [hmiss]

/-- A concrete predicate invocation of the name `ERROR`, which is also a
registered supertype, with empty predicate registries. -/
def e9Parent : ParentCtx := { kind := "predicate", namedChildTexts := ["ERROR", "?"] }

/-- The concrete identifier node `ERROR` inside the predicate invocation. -/
def e9Node : NodeCtx :=
  { kind := "identifier", text := "ERROR", range := sampleRange, parent := some e9Parent }

/-- A language registering `ERROR` as a supertype. -/
def e9Lang : LanguageData :=
  { nodeKinds := ["test"], fieldNames := [],
    supertypeMap := [({ label := "ERROR", named := true }, [{ label := "test", named := true }])] }

/-- The concrete document for the `ERROR` predicate hover. -/
def e9Doc : DocumentData :=
  { languageName := some "lang", nodeAt := fun _ => some e9Node, captureAt := fun _ => none }

/-- The concrete backend for the `ERROR` predicate hover. -/
def e9Backend : Backend :=
  { documentMap := [("file:///e.scm", e9Doc)], languageMap := [("lang", e9Lang)],
    options := emptyOptions }

/-- Witness for C9: even though the invoked name `ERROR` is a registered
supertype and is the `ERROR` keyword, an unknown predicate name replies with
nothing. -/
theorem hover_unknown_invocation_none_witness :
    (hover e9Backend "file:///e.scm" { line := 0, character := 2 }).2 = none :=
  hover_unknown_invocation_none e9Backend "file:///e.scm" { line := 0, character := 2 }
    e9Doc e9Node e9Parent rfl rfl rfl rfl rfl rfl

/-! ## Capture hover (C6) -/

/-- C6: hovering inside a capture (with the node not classified by any earlier
branch) looks the description up under the document's basename as context key
and the capture text with the leading `@` stripped, and replies with a
description exactly when both lookups succeed. -/
theorem hover_capture_description (b : Backend) (uri : String) (pos : Pos)
    (doc : DocumentData) (node : NodeCtx) (capture : CaptureNode)
    (hdoc : lookupAssoc b.documentMap uri = some doc)
    (hnode : doc.nodeAt pos = some node)
    (hcond : (node.kind == "identifier" && node.parent.any (fun q =>
      q.kind == "named_node" || q.kind == "missing_node" || q.kind == "predicate")) = false)
    (hk1 : node.kind ≠ "MISSING") (hk2 : node.kind ≠ "_")
    (hcap : doc.captureAt pos = some capture) :
    (hover b uri pos).2 =
      ((uri_to_basename uri).bind (fun base =>
        (lookupAssoc b.options.valid_captures base).bind (fun c =>
          lookupAssoc c (capture.text.drop 1)))).map
        (fun description => { range := capture.range,
                              value := HoverValue.markdown
                                ("## `" ++ capture.text ++ "`\n\n" ++ description) }) := by
  show hoverResult b uri pos = _
  rw [hoverResult_rest b uri pos doc node hdoc hnode hcond]
  exact hoverRest_capture b.options doc uri pos node capture hk1 hk2 hcap

/-- The concrete node under the cursor for a capture hover: the identifier
inside `@error`, whose parent is the capture node. -/
def capNode : NodeCtx :=
  { kind := "identifier", text := "error", range := sampleRange,
    parent := some { kind := "capture", namedChildTexts := [] } }

/-- The concrete enclosing capture node `@error`. -/
def capCapture : CaptureNode := { text := "@error", range := sampleRange }

/-- The concrete document for the capture hover. -/
def capDoc : DocumentData :=
  { languageName := none, nodeAt := fun _ => some capNode, captureAt := fun _ => some capCapture }

/-- A concrete backend with a capture description for the `highlights`
context. -/
def capBackend : Backend :=
  { documentMap := [("file:///queries/highlights.scm", capDoc)], languageMap := [],
    options := { valid_predicates := [], valid_directives := [],
                 valid_captures := [("highlights", [("error", "An error node")])] } }

/-- Witness for C6: the basename `highlights` and the stripped name `error`
resolve to the registered description. -/
theorem hover_capture_description_witness :
    (hover capBackend "file:///queries/highlights.scm" { line := 0, character := 3 }).2
      = some { range := sampleRange,
               value := HoverValue.markdown ("## `@error`\n\nAn error node") } := by
  have h := hover_capture_description capBackend "file:///queries/highlights.scm"
    { line := 0, character := 3 } capDoc capNode capCapture rfl rfl rfl
    (by decide) (by decide) rfl
  rw [h]
  rfl

/-! ## Supertype hover (C7) -/

/-- Containment survives appending on the right. -/
theorem strContains_append_left (s u t : String) (h : strContains s t) :
    strContains (s ++ u) t := by
  obtain ⟨l, r, hl⟩ := h
  refine ⟨l, r ++ u.data, ?_⟩
  rw [String.data_append, ← hl]
  simp [List.append_assoc]

/-- Containment in the seed survives the listing fold. -/
theorem strContains_foldl_of_init (subs : List SymbolInfo) (t : String) :
    ∀ init : String, strContains init t →
      strContains (subs.foldl (fun acc x => acc ++ "\n" ++ symbolDisplay x) init) t := by
  induction subs with
  | nil => exact fun init h => h
  | cons a l ih =>
    intro init h
    rw [List.foldl_cons]
    exact ih _ (strContains_append_left _ _ _ (strContains_append_left _ _ _ h))

/-- Every element's rendering occurs in the listing fold. -/
theorem strContains_foldl (subs : List SymbolInfo) (s : SymbolInfo) (hs : s ∈ subs) :
    ∀ init : String,
      strContains (subs.foldl (fun acc x => acc ++ "\n" ++ symbolDisplay x) init)
        (symbolDisplay s) := by
  induction subs with
  | nil => cases hs
  | cons a l ih =>
    intro init
    rw [List.foldl_cons]
    rcases List.mem_cons.mp hs with h | h
    · subst h
      refine strContains_foldl_of_init l _ _ ?_
      exact ⟨(init ++ "\n").data, [], by simp [String.data_append]⟩
    · exact ih h _

/-- The rendered listing of a supertype contains each subtype's rendering. -/
theorem subtypesListing_includes (nodeText : String) (subs : List SymbolInfo)
    (s : SymbolInfo) (hs : s ∈ subs) :
    strContains (subtypesListing nodeText subs) (symbolDisplay s) := by
  unfold subtypesListing
  exact strContains_append_left _ _ _ (strContains_foldl subs s hs _)

/-- C7 (amended): hovering an identifier that is a registered supertype of the
document's target language inside a named-node or missing-node position replies
with the subtype listing, and that listing contains every registered subtype;
inside a predicate position the name is resolved against the
predicate/directive registries instead and no listing is produced. -/
theorem hover_supertype_listing (b : Backend) (uri : String) (pos : Pos)
    (doc : DocumentData) (node : NodeCtx) (p : ParentCtx)
    (name : String) (ld : LanguageData) (subs : List SymbolInfo)
    (hdoc : lookupAssoc b.documentMap uri = some doc)
    (hnode : doc.nodeAt pos = some node)
    (hkind : node.kind = "identifier")
    (hpar : node.parent = some p)
    (hpk : p.kind = "named_node" ∨ p.kind = "missing_node")
    (hlang : doc.languageName = some name)
    (hld : lookupAssoc b.languageMap name = some ld)
    (hsub : lookupAssoc ld.supertypeMap { label := node.text, named := true } = some subs) :
    (hover b uri pos).2
      = some { range := node.range,
               value := HoverValue.markdown (subtypesListing node.text subs) }
    ∧ ∀ s ∈ subs, strContains (subtypesListing node.text subs) (symbolDisplay s) := by
  constructor
  · show hoverResult b uri pos = _
    rw [hoverResult_identifier b uri pos doc node p hdoc hnode hkind hpar
      (by rcases hpk with h | h
          · exact Or.inl h
          · exact Or.inr (Or.inl h))]
    have hneg : ¬((p.kind == "predicate") = true) := by
      rcases hpk with h | h <;> simp [h]
    unfold hoverIdentifier
    rw [if_neg hneg]
    rw [hlang]
    simp [hld, hsub]
  · exact fun s hs => subtypesListing_includes node.text subs s hs

/-- A concrete predicate-invocation parent around the supertype name. -/
def ceParent : ParentCtx := { kind := "predicate", namedChildTexts := ["supertype", "?"] }

/-- A concrete identifier node whose text is a registered supertype, sitting
inside a predicate invocation. -/
def ceNode : NodeCtx :=
  { kind := "identifier", text := "supertype", range := sampleRange, parent := some ceParent }

/-- A concrete language registering `supertype` with subtype `test`. -/
def ceLang : LanguageData :=
  { nodeKinds := ["test"], fieldNames := [],
    supertypeMap :=
      [({ label := "supertype", named := true }, [{ label := "test", named := true }])] }

/-- The concrete document for the predicate-position supertype hover. -/
def ceDoc : DocumentData :=
  { languageName := some "lang", nodeAt := fun _ => some ceNode, captureAt := fun _ => none }

/-- The concrete backend for the predicate-position supertype hover. -/
def ceBackend : Backend :=
  { documentMap := [("file:///s.scm", ceDoc)], languageMap := [("lang", ceLang)],
    options := emptyOptions }

/-- C7 fails as stated: hovering an identifier that is a registered supertype of
the document's language, in a predicate position, replies with nothing rather
than a subtype listing. -/
theorem hover_supertype_in_predicate_counterexample :
    ceNode.kind = "identifier"
    ∧ ceNode.parent = some ceParent
    ∧ ceParent.kind = "predicate"
    ∧ ceDoc.languageName = some "lang"
    ∧ lookupAssoc ceBackend.languageMap "lang" = some ceLang
    ∧ (lookupAssoc ceLang.supertypeMap { label := ceNode.text, named := true }).isSome = true
    ∧ (hover ceBackend "file:///s.scm" { line := 0, character := 2 }).2 = none :=
  ⟨rfl, rfl, rfl, rfl, rfl, rfl, rfl⟩

/-- A concrete named-node parent. -/
def wParent : ParentCtx := { kind := "named_node", namedChildTexts := [] }

/-- A concrete identifier node naming the supertype inside a named node. -/
def wNode : NodeCtx :=
  { kind := "identifier", text := "supertype", range := sampleRange, parent := some wParent }

/-- The concrete document for the named-node supertype hover. -/
def wDoc : DocumentData :=
  { languageName := some "lang", nodeAt := fun _ => some wNode, captureAt := fun _ => none }

/-- The concrete backend for the named-node supertype hover. -/
def wBackend : Backend :=
  { documentMap := [("file:///w.scm", wDoc)], languageMap := [("lang", ceLang)],
    options := emptyOptions }

/-- Witness for C7 (amended) at a concrete backend: the listing is produced and
contains the registered subtype. -/
theorem hover_supertype_listing_witness :
    (hover wBackend "file:///w.scm" { line := 0, character := 2 }).2
      = some { range := sampleRange,
               value := HoverValue.markdown
                 (subtypesListing "supertype" [{ label := "test", named := true }]) }
    ∧ strContains (subtypesListing "supertype" [{ label := "test", named := true }])
        (symbolDisplay { label := "test", named := true }) := by
  have h := hover_supertype_listing wBackend "file:///w.scm" { line := 0, character := 2 }
    wDoc wNode wParent "lang" ceLang [{ label := "test", named := true }]
    rfl rfl rfl rfl (Or.inl rfl) rfl rfl rfl
  exact ⟨h.1, h.2 _ (by simp)⟩

/-! ## Anchor hover (C10) -/

/-- C10: for a `.` token, the anchor document is returned exactly when no
capture encloses the cursor and the token has a parent that is not a predicate;
in particular a `.` inside a predicate invocation never replies with the anchor
document. -/
theorem hover_anchor_outside_predicate (b : Backend) (uri : String) (pos : Pos)
    (doc : DocumentData) (node : NodeCtx)
    (hdoc : lookupAssoc b.documentMap uri = some doc)
    (hnode : doc.nodeAt pos = some node)
    (hkind : node.kind = ".") :
    ((hover b uri pos).2
        = some { range := node.range, value := HoverValue.bundled DocFile.anchor }
      ↔ doc.captureAt pos = none ∧ ∃ q, node.parent = some q ∧ q.kind ≠ "predicate")
    ∧ (∀ q, node.parent = some q → q.kind = "predicate" →
        ∀ r, (hover b uri pos).2
          ≠ some { range := r, value := HoverValue.bundled DocFile.anchor }) := by
  have hrw : hoverResult b uri pos = hoverRest b.options doc uri pos node :=
    hoverResult_rest b uri pos doc node hdoc hnode (by simp [hkind])
  have hmain : ∀ r : Range,
      (hoverRest b.options doc uri pos node
          = some { range := r, value := HoverValue.bundled DocFile.anchor })
        ↔ (r = node.range ∧ doc.captureAt pos = none
            ∧ ∃ q, node.parent = some q ∧ q.kind ≠ "predicate") := by
    intro r
    cases hc : doc.captureAt pos with
    | some capture =>
      rw [hoverRest_capture b.options doc uri pos node capture
        (by simp [hkind]) (by simp [hkind]) hc]
      constructor
      · intro h
        cases hl : (uri_to_basename uri).bind (fun base =>
            (lookupAssoc b.options.valid_captures base).bind (fun c =>
              lookupAssoc c (capture.text.drop 1))) with
        | none => rw [hl] at h; cases h
        | some d => rw [hl] at h; simp at h
      · rintro ⟨-, hnone, -⟩
        simp [hc] at hnone
    | none =>
      rw [hoverRest_dot b.options doc uri pos node hkind hc]
      cases hp : node.parent with
      | none => simp
      | some q =>
        by_cases hq : q.kind = "predicate"
        · simp [hq]
        · simp [hq, bne_iff_ne]
          exact eq_comm
  constructor
  · show hoverResult b uri pos = _ ↔ _
    rw [hrw]
    rw [hmain node.range]
    constructor
    · exact fun h => ⟨h.2.1, h.2.2⟩
    · exact fun h => ⟨rfl, h.1, h.2⟩
  · intro q hq hqk r
    show hoverResult b uri pos ≠ _
    rw [hrw]
    intro h
    obtain ⟨-, -, q2, hq2, hq2k⟩ := (hmain r).mp h
    rw [hq] at hq2
    injection hq2 with he
    exact hq2k (he ▸ hqk)

/-- A concrete anchor token with a non-predicate parent. -/
def dotNode : NodeCtx :=
  { kind := ".", text := ".", range := sampleRange,
    parent := some { kind := "named_node", namedChildTexts := [] } }

/-- The concrete document for the anchor hover. -/
def dotDoc : DocumentData :=
  { languageName := none, nodeAt := fun _ => some dotNode, captureAt := fun _ => none }

/-- The concrete backend for the anchor hover. -/
def dotBackend : Backend :=
  { documentMap := [("file:///d.scm", dotDoc)], languageMap := [], options := emptyOptions }

/-- Witness for C10: at a concrete `.` token with a named-node parent and no
enclosing capture, the anchor document is returned. -/
theorem hover_anchor_outside_predicate_witness :
    (hover dotBackend "file:///d.scm" { line := 0, character := 0 }).2
      = some { range := sampleRange, value := HoverValue.bundled DocFile.anchor } := by
  have h := hover_anchor_outside_predicate dotBackend "file:///d.scm"
    { line := 0, character := 0 } dotDoc dotNode rfl rfl rfl
  exact h.1.mpr ⟨rfl, { kind := "named_node", namedChildTexts := [] }, rfl, by decide⟩

end TsQueryLs
